import Mathlib

/-!
Verification development for the Student-Rent-Reconciliation-Bot repository.

The embedding below translates `recon/matcher.py`, `recon/rules.py` and the
findings-merge loop of `app.py` / `streamlit_app.py` into Lean.

Modelling conventions:
* Rows of the pandas DataFrames become typed records (`BankRow`, `InvRow`)
  with the canonical columns produced by `preprocess` (the column aliasing
  and CSV parsing of raw inputs are outside the claims; the embedding starts
  from the typed, parsed rows that `preprocess` guarantees).
* Python float amounts are modelled as exact rationals (`ℚ`); `NaN` amounts
  (from `pd.to_numeric(errors='coerce')`) are `Option.none`.  A `NaN`
  comparison in Python is `False`, which matches the `Option` case split.
* Parsed calendar dates are modelled as abstract day numbers (`Option Int`,
  `none` = `NaT`); the code only ever compares them for equality.
* DataFrame row indices are the default `RangeIndex 0..n-1`, modelled as
  `Nat` positions into the row lists; pandas character classes are ASCII.
-/

/-! ## Regular-expression model for `REF_PATTERNS` (matcher.py lines 11, 22-28)

`REF_PATTERNS = [r'\b[A-Z]{2,}-\d{1,}\b', r'\b[A-Z]{2,}\d{2,}\b']`.

Both patterns start with `[A-Z]` (a word character), so the leading `\b`
holds exactly when the previous character is absent or a non-word character;
the trailing `\b` holds exactly when the next character is absent or a
non-word character.  Greedy repetition never backtracks usefully here: a
shortened letter run is followed by a letter (not `-`/digit) and a shortened
digit run is followed by a digit (a word character), so each pattern matches
at a position iff the maximal runs below line up.  `re.search` returns the
match at the leftmost feasible start position. -/

/-- Python regex `\w` over ASCII: letters, digits and underscore. -/
def isWordChar (c : Char) : Bool := c.isAlpha || c.isDigit || c = '_'

/-- The character class `[A-Z]`. -/
def isUpperAZ (c : Char) : Bool := 'A' ≤ c && c ≤ 'Z'

/-- Length of the maximal leading run of characters satisfying `p`. -/
def runLen (p : Char → Bool) : List Char → Nat
  | [] => 0
  | c :: cs => if p c then runLen p cs + 1 else 0

/-- Trailing `\b` after a maximal digit run: next character absent or non-word. -/
def boundaryAfter : List Char → Bool
  | [] => true
  | c :: _ => !(isWordChar c)

/-- Match of `[A-Z]{2,}-\d{1,}\b` anchored at the head of `s` (the leading
`\b` is checked by the caller).  Returns the matched substring. -/
def matchA (s : List Char) : Option (List Char) :=
  let L := runLen isUpperAZ s
  if L < 2 then none else
  match s.drop L with
  | '-' :: rest =>
    let D := runLen Char.isDigit rest
    if D < 1 then none else
    if boundaryAfter (rest.drop D) then
      some (s.take L ++ '-' :: rest.take D)
    else none
  | _ => none

/-- Match of `[A-Z]{2,}\d{2,}\b` anchored at the head of `s`. -/
def matchB (s : List Char) : Option (List Char) :=
  let L := runLen isUpperAZ s
  if L < 2 then none else
  let rest := s.drop L
  let D := runLen Char.isDigit rest
  if D < 2 then none else
  if boundaryAfter (rest.drop D) then
    some (s.take L ++ rest.take D)
  else none

/-- `re.search`: try the anchored matcher at each position left to right.
`bdry` records whether a `\b` can hold before the current position, i.e.
whether the previous character (if any) is a non-word character. -/
def searchFrom (pat : List Char → Option (List Char)) : Bool → List Char → Option (List Char)
  | bdry, [] => if bdry then pat [] else none
  | bdry, c :: cs =>
    match (if bdry then pat (c :: cs) else none) with
    | some m => some m
    | none => searchFrom pat (!(isWordChar c)) cs

/-- `re.search(p, txt)` starting at position 0 (start of string is a feasible
boundary position; the pattern itself requires a word character first). -/
def reSearch (pat : List Char → Option (List Char)) (s : List Char) : Option (List Char) :=
  searchFrom pat true s

/-- `extract_reference` (matcher.py lines 22-28): uppercase the text, search
pattern (a) over the whole string, then pattern (b), else `''`. -/
def extract_reference (text : String) : String :=
  if text = "" then "" else
  let txt := text.data.map Char.toUpper
  match reSearch matchA txt with
  | some m => String.mk m
  | none =>
    match reSearch matchB txt with
    | some m => String.mk m
    | none => ""

/-- Modelled from the spec: the spec sentence for reference extraction asks
for "the first match found reading left to right" over *both* patterns
simultaneously — at each position try pattern (a) then pattern (b) (the two
cannot match at the same position simultaneously), taking the leftmost hit.
This is the comparison point for claim C2; the code's `extract_reference`
instead gives pattern (a) global priority. -/
def extract_reference_spec (text : String) : String :=
  if text = "" then "" else
  let txt := text.data.map Char.toUpper
  match reSearch (fun s => (matchA s).orElse (fun _ => matchB s)) txt with
  | some m => String.mk m
  | none => ""

/-- Anchored match attempted at position `i` (`matchAt pat bdry s i` with
`bdry` the boundary state before `s`); declarative per-position view of
`searchFrom`, used to state leftmost-match theorems. -/
def matchAt (pat : List Char → Option (List Char)) : Bool → List Char → Nat → Option (List Char)
  | bdry, s, 0 => if bdry then pat s else none
  | _, [], _ + 1 => none
  | _, c :: cs, i + 1 => matchAt pat (!(isWordChar c)) cs i

example : extract_reference "Payment ref ABC-123 received" = "ABC-123" := by decide
example : extract_reference "no codes here" = "" := by decide
example : extract_reference "AB12 CD-3" = "CD-3" := by decide
example : extract_reference_spec "AB12 CD-3" = "AB12" := by decide

/-! ## Data model (post-`preprocess` rows, matcher.py lines 42-90) -/

/-- A bank transaction row after `preprocess`: canonical columns `txn_id`,
`date` (parsed, nullable), `amount` (numeric, `none` = NaN), `description`
and `reference` (free text, `none` = NaN). -/
structure BankRow where
  txn_id : Option String
  date : Option Int
  amount : Option ℚ
  description : Option String
  reference : Option String
deriving DecidableEq

/-- An invoice row after `preprocess`. -/
structure InvRow where
  invoice_id : Option String
  customer : Option String
  amount : Option ℚ
  due_date : Option Int
  reference : Option String
deriving DecidableEq

/-- Python `str.strip()`: drop whitespace from both ends. -/
def pyStrip (l : List Char) : List Char :=
  ((l.dropWhile Char.isWhitespace).reverse.dropWhile Char.isWhitespace).reverse

/-- `str(r).strip().upper()` applied to an invoice reference
(matcher.py line 103). -/
def normRef (s : String) : String := String.mk ((pyStrip s.data).map Char.toUpper)

/-- The `_extracted_ref` helper column (matcher.py lines 80-85): extract from
`description` (NaN filled with `''`), and if that gives `''`, extract from
`reference` instead. -/
def extractedRef (b : BankRow) : String :=
  let e1 := extract_reference (b.description.getD "")
  if e1 = "" then extract_reference (b.reference.getD "") else e1

/-! ## The invoice-reference lookup (matcher.py line 103)

`inv_by_ref = {str(r).strip().upper(): i for i, r in inv['reference'].items()
if pd.notna(r)}` — a dict built in index order, so a later duplicate key
overwrites an earlier one.  `buildRef` replays the insertions with the dict
modelled as a function `String → Option Nat`. -/

/-- One dict insertion for invoice index `i`: skipped for a null reference,
otherwise binds the normalized key to `i`, shadowing the previous map. -/
def insRef (i : Nat) (r : InvRow) (m : String → Option Nat) : String → Option Nat :=
  match r.reference with
  | none => m
  | some s => fun k => if k = normRef s then some i else m k

/-- Replay of the dict comprehension from index `i0` over the remaining rows. -/
def buildRef : Nat → List InvRow → (String → Option Nat) → (String → Option Nat)
  | _, [], m => m
  | i, r :: rest, m => buildRef (i + 1) rest (insRef i r m)

/-- The complete `inv_by_ref` lookup. -/
def inv_by_ref (invs : List InvRow) : String → Option Nat :=
  buildRef 0 invs (fun _ => none)

/-- Does row `r` carry (non-null) reference normalizing to key `k`? -/
def refKey (r : InvRow) (k : String) : Prop :=
  ∃ s, r.reference = some s ∧ k = normRef s

instance (r : InvRow) (k : String) : Decidable (refKey r k) := by
  unfold refKey
  cases r.reference with
  | none => exact isFalse (by simp)
  | some s => exact decidable_of_iff (k = normRef s) (by simp)

/-- Relative position of the last row of the list whose reference normalizes
to `k` (the dict's winning entry for key `k`). -/
def lastIdx : List InvRow → String → Option Nat
  | [], _ => none
  | r :: rest, k =>
    match lastIdx rest k with
    | some j => some (j + 1)
    | none => if refKey r k then some 0 else none

/-! ## The matcher (matcher.py lines 92-126) -/

/-- Mutable state of the exact-reference pass: accepted `(txn index, invoice
index)` pairs (each tagged `exact_ref` in the source) plus the two unmatched
index pools. -/
structure MatchState where
  results : List (Nat × Nat)
  unTxns : Finset ℕ
  unInvs : Finset ℕ
deriving DecidableEq

/-- Body of the `for bi in list(unmatched_txns_idx)` loop (lines 105-116):
probe the lookup with the transaction's extracted reference; accept when the
hit invoice is still unmatched, both amounts are non-null (a NaN comparison
in Python is `False`) and the amounts differ by strictly less than 0.05. -/
def matchStep (banks : List BankRow) (invs : List InvRow)
    (lookup : String → Option Nat) (st : MatchState) (bi : Nat) : MatchState :=
  match banks.get? bi with
  | none => st
  | some b =>
    match lookup (extractedRef b) with
    | none => st
    | some ii =>
      if ii ∈ st.unInvs then
        match b.amount, (invs.get? ii).bind InvRow.amount with
        | some ba, some ia =>
          if |ba - ia| < (0.05 : ℚ) then
            ⟨st.results ++ [(bi, ii)], st.unTxns.erase bi, st.unInvs.erase ii⟩
          else st
        | some _, none => st
        | none, _ => st
      else st

/-- Initial pools: every row index of each input (the default RangeIndex). -/
def initState (banks : List BankRow) (invs : List InvRow) : MatchState :=
  ⟨[], Finset.range banks.length, Finset.range invs.length⟩

/-- The exact-reference pass of `match`: every transaction index probes once,
in index order.  (The fuzzy second pass, line 118, is an explicit no-op.) -/
def runMatch (banks : List BankRow) (invs : List InvRow) : MatchState :=
  (List.range banks.length).foldl
    (matchStep banks invs (inv_by_ref invs)) (initState banks invs)

/-- The tuple returned by `match` (lines 120-126): matches plus the two
unmatched pools materialized in ascending row-index order via
`bank.loc[sorted(unmatched_txns_idx)]`. -/
structure MatchOutput where
  matched : List (Nat × Nat)
  unmatched_txns : List Nat
  unmatched_invs : List Nat
deriving DecidableEq

/-- `match(bank_df, inv_df)` restricted to its deterministic skeleton. -/
def matchFull (banks : List BankRow) (invs : List InvRow) : MatchOutput :=
  let st := runMatch banks invs
  ⟨st.results, st.unTxns.sort (· ≤ ·), st.unInvs.sort (· ≤ ·)⟩

/-! ## The findings engine (rules.py) and the merge loop (app.py lines 31-37) -/

/-- Descriptor of a split/partial payment (spec section 3; the reserved
`'partials'` category of the findings dict — the code never creates one). -/
structure SplitPayment where
  customer : String
  invoice_id : String
  received_total : ℚ
deriving DecidableEq

/-- A value stored in a findings dict: either a DataFrame of flagged
transaction rows or a plain Python list of split-payment descriptors.  The
distinction matters because the merge loop tests
`isinstance(existing, pd.DataFrame)`. -/
inductive FVal where
  | df (rows : List BankRow)
  | lst (xs : List SplitPayment)
deriving DecidableEq

/-- `v.empty` / `not v` emptiness of a findings value. -/
def fvalEmpty : FVal → Bool
  | .df rows => rows.isEmpty
  | .lst xs => xs.isEmpty

/-- The findings dict returned by `match` (matcher.py line 124):
`{'duplicate_txn': pd.DataFrame(), 'partials': []}`. -/
def matcherFindings : List (String × FVal) :=
  [("duplicate_txn", FVal.df []), ("partials", FVal.lst [])]

/-- `duplicated(subset=['amount','date'], keep=False)` key: pandas treats
NaN/NaT as equal to themselves when detecting duplicates, matching `Option`
equality. -/
def sameKey (a b : BankRow) : Bool :=
  decide (a.amount = b.amount) && decide (a.date = b.date)

/-- Rows flagged by `bank_unmatched.duplicated(subset=['amount','date'],
keep=False)` (rules.py lines 11-12): a row is marked iff its (amount, date)
pair occurs more than once in the column. -/
def dupRows (l : List BankRow) : List BankRow :=
  l.filter (fun r => 1 < l.countP (fun x => sameKey x r))

/-- `Series.quantile(0.90)` with the default linear interpolation over the
sorted non-null values: position `0.9 * (n-1)` between order statistics;
`none` when every value is null (pandas returns NaN). -/
def quantile90 (xs : List ℚ) : Option ℚ :=
  let s := List.insertionSort (· ≤ ·) xs
  match s.length with
  | 0 => none
  | n + 1 =>
    let i := (9 * n) / 10
    let g : ℚ := (9 * n : ℚ) / 10 - (i : ℚ)
    let a := s.getD i 0
    let b := s.getD (i + 1) a
    some (a + g * (b - a))

/-- Rows flagged by `bank_unmatched[bank_unmatched['amount'] >= threshold]`
(rules.py lines 18-19); a NaN threshold or a NaN amount compares `False`. -/
def hvRows (l : List BankRow) : List BankRow :=
  match quantile90 (l.filterMap BankRow.amount) with
  | none => []
  | some t => l.filter (fun r => match r.amount with
      | some a => decide (t ≤ a)
      | none => false)

/-- `compute_findings` (rules.py lines 6-21).  In the typed model the columns
always exist, so the `issubset` guard reduces to the emptiness test; the
`high_value_unmatched` key is only set when `bank_unmatched` is non-empty
(the `if` on line 17 has no `else`).  `matches` and `inv_unmatched` are
accepted and ignored, exactly as in the source. -/
def compute_findings (matches_in : List (Nat × Nat)) (bank_unmatched : List BankRow)
    (inv_unmatched : List InvRow) : List (String × FVal) :=
  let _ := matches_in
  let _ := inv_unmatched
  let dup : FVal := if bank_unmatched.isEmpty then FVal.df [] else FVal.df (dupRows bank_unmatched)
  let f1 := [("duplicate_txn", dup)]
  if bank_unmatched.isEmpty then f1
  else f1 ++ [("high_value_unmatched", FVal.df (hvRows bank_unmatched))]

/-- `findings.get(k)` on the insertion-ordered dict. -/
def dictGet (f : List (String × FVal)) (k : String) : Option FVal :=
  (f.find? (fun p => p.1 == k)).map (fun p => p.2)

/-- `findings[k] = v`: overwrite in place when the key exists, else append. -/
def dictSet (f : List (String × FVal)) (k : String) (v : FVal) : List (String × FVal) :=
  if f.any (fun p => p.1 == k) then
    f.map (fun p => if p.1 == k then (k, v) else p)
  else f ++ [(k, v)]

/-- One iteration of the merge loop of app.py lines 31-37 (identically
streamlit_app.py lines 113-119) for the strict finding `p = (k, v)`: set it
when `k` is absent, or when the existing value is an *empty DataFrame* and
`v` is non-empty; a non-DataFrame existing value never passes the
`isinstance(existing, pd.DataFrame)` test, so it is kept unconditionally. -/
def mergeStep (f : List (String × FVal)) (p : String × FVal) : List (String × FVal) :=
  match dictGet f p.1 with
  | none => dictSet f p.1 p.2
  | some (FVal.df rows) =>
    if rows.isEmpty && !(fvalEmpty p.2) then dictSet f p.1 p.2 else f
  | some (FVal.lst _) => f

/-- The whole merge loop: `for k, v in strict_findings.items(): ...`. -/
def mergeFindings (findings strict : List (String × FVal)) : List (String × FVal) :=
  strict.foldl mergeStep findings

/-- Consumer access `findings.get(k, [])` (streamlit_app.py line 189,
summarizer.py): an absent category reads as the empty collection. -/
def getFinding (f : List (String × FVal)) (k : String) : List BankRow :=
  match dictGet f k with
  | some (FVal.df rows) => rows
  | some (FVal.lst _) => []
  | none => []

/-! ## Concrete fixtures for boundary checks and witnesses -/

/-- A transaction whose description carries the reference `ABC-123`. -/
def bRow (a : Option ℚ) : BankRow :=
  ⟨some "T1", none, a, some "Payment ref ABC-123 received", none⟩

/-- An invoice whose raw reference ` abc-123 ` trims and uppercases to
`ABC-123`. -/
def iRow (a : Option ℚ) : InvRow :=
  ⟨some "I1", none, a, none, some " abc-123 "⟩

/-- A transaction row carrying only an amount. -/
def amtRow (a : ℚ) : BankRow := ⟨none, none, some a, none, none⟩

/-- Unmatched amounts 10, 20, ..., 100 (spec section 8 high-value example). -/
def rows10 : List BankRow := (List.range 10).map (fun k => amtRow (10 * (k + 1)))

/-- Two distinct transactions with identical amount 500 and identical date
(spec section 8 duplicate example). -/
def dupA : BankRow := ⟨some "T-A", some 7, some 500, none, none⟩

/-- See `dupA`. -/
def dupB : BankRow := ⟨some "T-B", some 7, some 500, none, none⟩

/-- Two distinct transactions with null (unparsable) amounts on the same
date, for the null-duplicate check of C10. -/
def nullA : BankRow := ⟨some "N-A", some 3, none, none, none⟩

/-- See `nullA`. -/
def nullB : BankRow := ⟨some "N-B", some 3, none, none, none⟩

/-- Loop invariant of the exact-reference pass: the matched and unmatched
index sets partition each input's row range, and no index is reused across
the recorded pairs. -/
def MatchInv (bn im : Nat) (st : MatchState) : Prop :=
  (∀ t, t ∈ Finset.range bn ↔ (t ∈ st.unTxns ∨ t ∈ st.results.map Prod.fst)) ∧
  (∀ t, ¬(t ∈ st.unTxns ∧ t ∈ st.results.map Prod.fst)) ∧
  (st.results.map Prod.fst).Nodup ∧
  (∀ v, v ∈ Finset.range im ↔ (v ∈ st.unInvs ∨ v ∈ st.results.map Prod.snd)) ∧
  (∀ v, ¬(v ∈ st.unInvs ∧ v ∈ st.results.map Prod.snd)) ∧
  (st.results.map Prod.snd).Nodup

example : extractedRef (bRow (some 100)) = "ABC-123" := by decide

example : normRef " abc-123 " = "ABC-123" := by decide

unseal Rat.add Rat.sub Rat.mul Rat.inv Rat.ofScientific in
example : (matchFull [bRow (some (100049/1000))] [iRow (some 100)]).matched = [(0, 0)] := by decide

unseal Rat.add Rat.sub Rat.mul Rat.inv Rat.ofScientific in
example : (matchFull [bRow (some (10005/100))] [iRow (some 100)]).matched = [] := by decide

example : (matchFull [bRow none] [iRow (some 100)]).matched = [] := by decide

unseal Rat.add Rat.sub Rat.mul Rat.inv Rat.ofScientific in
example : (matchFull [bRow (some 100)] [iRow none]).matched = [] := by decide

unseal Rat.add Rat.sub Rat.mul Rat.inv Rat.ofScientific in
example : quantile90 (rows10.filterMap BankRow.amount) = some 91 := by decide

unseal Rat.add Rat.sub Rat.mul Rat.inv Rat.ofScientific in
example : getFinding (compute_findings [] rows10 []) "high_value_unmatched" = [amtRow 100] := by decide

/-! ## Helper lemmas: findings-engine projections -/

lemma getFinding_dup (m : List (Nat × Nat)) (l : List BankRow) (iu : List InvRow) :
    getFinding (compute_findings m l iu) "duplicate_txn" = dupRows l := by
  cases l with
  | nil => rfl
  | cons a t => rfl

lemma getFinding_hv (m : List (Nat × Nat)) (l : List BankRow) (iu : List InvRow) :
    getFinding (compute_findings m l iu) "high_value_unmatched" =
      if l.isEmpty then [] else hvRows l := by
  cases l with
  | nil => rfl
  | cons a t => rfl

lemma dictGet_cf_dup (m : List (Nat × Nat)) (l : List BankRow) (iu : List InvRow) :
    dictGet (compute_findings m l iu) "duplicate_txn" = some (FVal.df (dupRows l)) := by
  cases l with
  | nil => rfl
  | cons a t => rfl

lemma dictGet_cf_partials (m : List (Nat × Nat)) (l : List BankRow) (iu : List InvRow) :
    dictGet (compute_findings m l iu) "partials" = none := by
  cases l with
  | nil => rfl
  | cons a t => rfl

lemma count_mem_two {α : Type} (fl : List α) (a b : α) (ha : a ∈ fl) (hb : b ∈ fl)
    (hab : a ≠ b) : 1 < fl.length := by
  match fl with
  | [] => exact absurd ha (List.not_mem_nil a)
  | [x] =>
    rw [List.mem_singleton] at ha hb
    exact absurd (ha.trans hb.symm) hab
  | x :: y :: t => simp [Nat.lt_add_of_pos_left]

/-! ## Claim C5: duplicate detection flags every repeated (amount, date) pair -/

/-- C5: in `compute_findings`, the `duplicate_txn` finding contains exactly
the unmatched transaction records whose (amount, date) pair occurs more than
once among the unmatched transactions, with every occurrence retained (the
multiplicity of each flagged record is its full multiplicity in the input),
and a record with a unique (amount, date) pair is never flagged. -/
theorem duplicate_txn_exact (m : List (Nat × Nat)) (l : List BankRow)
    (iu : List InvRow) (r : BankRow) :
    (getFinding (compute_findings m l iu) "duplicate_txn").count r =
      if 1 < l.countP (fun x => sameKey x r) then l.count r else 0 := by
  rw [getFinding_dup]
  unfold dupRows
  by_cases h : 1 < l.countP (fun x => sameKey x r)
  · rw [if_pos h]
    exact List.count_filter (by simpa using h)
  · rw [if_neg h]
    rw [List.count_eq_zero]
    intro hr
    rcases List.mem_filter.mp hr with ⟨_, hp⟩
    exact h (by simpa using hp)

/-! ## Claim C7: compute_findings is total, empty in, empty out -/

/-- C7: `compute_findings` is a total function of its three (typed) inputs:
it is defined for every combination including empty ones (in the embedding it
is a total `def`; the partial pandas operations it uses are guarded exactly
as in the source), the `duplicate_txn` category is always present, empty
unmatched transactions produce only an empty `duplicate_txn` finding, and a
category it does not compute — such as `partials` — is absent from its output
and reads as the empty collection through the `findings.get(k, [])` accessor
rather than as null. -/
theorem compute_findings_total :
    (∀ m bu iu, (dictGet (compute_findings m bu iu) "duplicate_txn").isSome = true) ∧
    (∀ m iu, compute_findings m [] iu = [("duplicate_txn", FVal.df [])]) ∧
    (∀ m bu iu, dictGet (compute_findings m bu iu) "partials" = none ∧
      getFinding (compute_findings m bu iu) "partials" = []) := by
  refine ⟨fun m bu iu => ?_, fun m iu => rfl, fun m bu iu => ⟨dictGet_cf_partials m bu iu, ?_⟩⟩
  · rw [dictGet_cf_dup]
    rfl
  · unfold getFinding
    rw [dictGet_cf_partials]

/-! ## Claim C10: null amounts in duplicate detection and high-value filter -/

/-- C10: two distinct unmatched transactions whose amounts are both null and
whose dates agree are both flagged in `duplicate_txn` (null amounts compare
equal to each other for duplicate detection, as pandas treats NaN keys), and
a transaction with a null amount is never flagged in `high_value_unmatched`
(a NaN amount never compares at or above the percentile threshold). -/
theorem null_amount_findings :
    (∀ m l iu (r1 r2 : BankRow), r1 ∈ l → r2 ∈ l → r1 ≠ r2 →
      r1.amount = none → r2.amount = none → r1.date = r2.date →
      r1 ∈ getFinding (compute_findings m l iu) "duplicate_txn" ∧
      r2 ∈ getFinding (compute_findings m l iu) "duplicate_txn") ∧
    (∀ m l iu (r : BankRow), r.amount = none →
      r ∉ getFinding (compute_findings m l iu) "high_value_unmatched") := by
  constructor
  · intro m l iu r1 r2 h1 h2 hne ha1 ha2 hd
    rw [getFinding_dup]
    have key : ∀ r r' : BankRow, r.amount = r'.amount → r.date = r'.date →
        ∀ x, sameKey x r = sameKey x r' := by
      intro r r' hamt hdt x
      unfold sameKey
      rw [hamt, hdt]
    have hcnt : ∀ r : BankRow, r.amount = none → r.date = r1.date →
        1 < l.countP (fun x => sameKey x r) := by
      intro r hra hrd
      have h12 : ∀ x, sameKey x r = sameKey x r1 := key r r1 (by rw [hra, ha1]) hrd
      simp only [h12]
      rw [List.countP_eq_length_filter]
      apply count_mem_two (l.filter (fun x => sameKey x r1)) r1 r2 _ _ hne
      · exact List.mem_filter.mpr ⟨h1, by unfold sameKey; simp⟩
      · exact List.mem_filter.mpr ⟨h2, by unfold sameKey; simp [ha1, ha2, hd]⟩
    constructor
    · exact List.mem_filter.mpr ⟨h1, by simpa using hcnt r1 ha1 rfl⟩
    · exact List.mem_filter.mpr ⟨h2, by simpa using hcnt r2 ha2 hd.symm⟩
  · intro m l iu r hra
    rw [getFinding_hv]
    by_cases hl : l.isEmpty
    · rw [if_pos hl]
      exact List.not_mem_nil r
    · rw [if_neg hl]
      unfold hvRows
      cases quantile90 (l.filterMap BankRow.amount) with
      | none => exact List.not_mem_nil r
      | some t =>
        intro hmem
        have := (List.mem_filter.mp hmem).2
        rw [hra] at this
        simp at this

/-- Witness for C10 at a concrete input: `nullA` and `nullB` share a null
amount and the date 3, so both land in `duplicate_txn`, and `nullA` is not in
`high_value_unmatched`. -/
theorem null_amount_findings_witness :
    nullA ∈ getFinding (compute_findings [] [nullA, nullB] []) "duplicate_txn" ∧
    nullB ∈ getFinding (compute_findings [] [nullA, nullB] []) "duplicate_txn" ∧
    nullA ∉ getFinding (compute_findings [] [nullA, nullB] []) "high_value_unmatched" := by
  have h1 := null_amount_findings.1 [] [nullA, nullB] [] nullA nullB
    (by decide) (by decide) (by decide) rfl rfl rfl
  have h2 := null_amount_findings.2 [] [nullA, nullB] [] nullA rfl
  exact ⟨h1.1, h1.2, h2⟩

/-! ## Claim C6: high-value outliers at / above the 90th percentile -/

unseal Rat.add Rat.sub Rat.mul Rat.inv Rat.ofScientific in
/-- C6: the `high_value_unmatched` finding contains exactly the unmatched
transactions whose amount is at or above the 90th percentile of the unmatched
amounts (pandas linear-interpolation quantile over the non-null values); when
the unmatched set is empty the category is simply absent (reading as empty
through the accessor, with no error), and when all amounts are null the
finding is empty; for the amounts 10, 20, ..., 100 the flagged set is exactly
the set of records at or above the 90th percentile, which is 91. -/
theorem high_value_unmatched_spec :
    (∀ m iu, dictGet (compute_findings m [] iu) "high_value_unmatched" = none ∧
      getFinding (compute_findings m [] iu) "high_value_unmatched" = []) ∧
    (∀ m l iu, l.filterMap BankRow.amount = [] →
      getFinding (compute_findings m l iu) "high_value_unmatched" = []) ∧
    (∀ m l iu (r : BankRow), r ∈ getFinding (compute_findings m l iu) "high_value_unmatched" ↔
      (r ∈ l ∧ ∃ a t, r.amount = some a ∧
        quantile90 (l.filterMap BankRow.amount) = some t ∧ t ≤ a)) ∧
    (quantile90 (rows10.filterMap BankRow.amount) = some 91 ∧
      getFinding (compute_findings [] rows10 []) "high_value_unmatched" =
        rows10.filter (fun r => match r.amount with
          | some a => decide ((91 : ℚ) ≤ a)
          | none => false) ∧
      getFinding (compute_findings [] rows10 []) "high_value_unmatched" = [amtRow 100]) := by
  refine ⟨fun m iu => ⟨rfl, rfl⟩, fun m l iu h => ?_, fun m l iu r => ?_,
    by decide, by decide, by decide⟩
  · rw [getFinding_hv]
    by_cases hl : l.isEmpty
    · rw [if_pos hl]
    · rw [if_neg hl]
      unfold hvRows
      have hq : quantile90 (l.filterMap BankRow.amount) = none := by
        rw [h]
        rfl
      rw [hq]
  · rw [getFinding_hv]
    by_cases hl : l.isEmpty
    · rw [if_pos hl]
      rw [List.isEmpty_iff] at hl
      subst hl
      simp
    · rw [if_neg hl]
      unfold hvRows
      cases hq : quantile90 (l.filterMap BankRow.amount) with
      | none => simp
      | some t =>
        constructor
        · intro hmem
          obtain ⟨hrl, hcond⟩ := List.mem_filter.mp hmem
          cases hra : r.amount with
          | none =>
            rw [hra] at hcond
            simp at hcond
          | some a =>
            rw [hra] at hcond
            simp at hcond
            exact ⟨hrl, a, t, rfl, rfl, hcond⟩
        · rintro ⟨hrl, a, t', hra, hts, hle⟩
          injection hts with hts
          subst hts
          refine List.mem_filter.mpr ⟨hrl, ?_⟩
          rw [hra]
          simpa using hle

/-- Witness for C6: a single all-null-amount unmatched transaction yields an
empty high-value finding. -/
theorem high_value_unmatched_spec_witness :
    getFinding (compute_findings [] [nullA] []) "high_value_unmatched" = [] :=
  high_value_unmatched_spec.2.1 [] [nullA] [] rfl

/-! ## Claim C1: acceptance condition of the exact-reference pass -/

lemma accept_ne (st : MatchState) (bi ii : Nat) :
    st ≠ ⟨st.results ++ [(bi, ii)], st.unTxns.erase bi, st.unInvs.erase ii⟩ := by
  intro h
  have h2 := congrArg (fun s => s.results.length) h
  simp at h2

unseal Rat.add Rat.sub Rat.mul Rat.inv Rat.ofScientific in
/-- C1: in the exact-reference pass of `match`, a transaction with a
non-empty extracted reference whose lookup probe hits invoice `ii` is
accepted (pair recorded, both indices removed) iff `ii` is still unmatched,
both amounts are non-null, and the amounts differ by strictly less than 0.05;
otherwise the state is unchanged.  In particular, with identical references a
pair differing by 0.049 matches, a pair differing by exactly 0.05 does not,
and a pair with a null amount on either side never matches. -/
theorem exact_ref_acceptance :
    (∀ banks invs (st : MatchState) bi (b : BankRow) ii,
      banks.get? bi = some b → extractedRef b ≠ "" →
      inv_by_ref invs (extractedRef b) = some ii →
      ((matchStep banks invs (inv_by_ref invs) st bi =
          ⟨st.results ++ [(bi, ii)], st.unTxns.erase bi, st.unInvs.erase ii⟩) ↔
        (ii ∈ st.unInvs ∧ ∃ ba ia, b.amount = some ba ∧
          ((invs.get? ii).bind InvRow.amount) = some ia ∧ |ba - ia| < (0.05 : ℚ))) ∧
      (matchStep banks invs (inv_by_ref invs) st bi =
          ⟨st.results ++ [(bi, ii)], st.unTxns.erase bi, st.unInvs.erase ii⟩ ∨
        matchStep banks invs (inv_by_ref invs) st bi = st)) ∧
    (matchFull [bRow (some (100049/1000))] [iRow (some 100)]).matched = [(0, 0)] ∧
    (matchFull [bRow (some (10005/100))] [iRow (some 100)]).matched = [] ∧
    (matchFull [bRow none] [iRow (some 100)]).matched = [] ∧
    (matchFull [bRow (some 100)] [iRow none]).matched = [] := by
  refine ⟨?_, by decide, by decide, by decide, by decide⟩
  intro banks invs st bi b ii hb _href hl
  unfold matchStep
  simp only [hb, hl]
  by_cases hii : ii ∈ st.unInvs
  · rw [if_pos hii]
    constructor
    · constructor
      · intro h
        split at h
        · rename_i ba ia hba hia
          split at h
          · rename_i hlt
            exact ⟨hii, ba, ia, hba, hia, hlt⟩
          · exact absurd h (accept_ne st bi ii)
        · exact absurd h (accept_ne st bi ii)
        · exact absurd h (accept_ne st bi ii)
      · rintro ⟨-, ba, ia, hba, hia, hlt⟩
        simp only [hba, hia]
        rw [if_pos hlt]
    · split
      · split
        · exact Or.inl rfl
        · exact Or.inr rfl
      · exact Or.inr rfl
      · exact Or.inr rfl
  · rw [if_neg hii]
    exact ⟨⟨fun h => absurd h (accept_ne st bi ii), fun h => absurd h.1 hii⟩, Or.inr rfl⟩

unseal Rat.add Rat.sub Rat.mul Rat.inv Rat.ofScientific in
/-- Witness for C1: at the 0.049 boundary with identical references the
step accepts, recording the pair (0, 0) and erasing both indices. -/
theorem exact_ref_acceptance_witness :
    matchStep [bRow (some (100049/1000))] [iRow (some 100)]
        (inv_by_ref [iRow (some 100)])
        (initState [bRow (some (100049/1000))] [iRow (some 100)]) 0 =
      ⟨[(0, 0)], (Finset.range 1).erase 0, (Finset.range 1).erase 0⟩ := by
  have h := (exact_ref_acceptance.1 [bRow (some (100049/1000))] [iRow (some 100)]
    (initState [bRow (some (100049/1000))] [iRow (some 100)]) 0
    (bRow (some (100049/1000))) 0 rfl (by decide) (by decide)).1
  exact h.mpr ⟨by decide, 100049/1000, 100, rfl, rfl, by decide⟩

/-! ## Claim C9: unmatched sets are sorted by row index -/

/-- C9: for every pair of input datasets the unmatched transaction and
unmatched invoice sets returned by `match` are listed in ascending original
row-index order (the source materializes them via `sorted(...)`). -/
theorem unmatched_sorted (banks : List BankRow) (invs : List InvRow) :
    List.Sorted (· ≤ ·) (matchFull banks invs).unmatched_txns ∧
    List.Sorted (· ≤ ·) (matchFull banks invs).unmatched_invs :=
  ⟨Finset.sort_sorted (· ≤ ·) _, Finset.sort_sorted (· ≤ ·) _⟩

/-! ## Claim C3: partition invariant of the exact-reference pass -/

lemma step_dichotomy (banks : List BankRow) (invs : List InvRow)
    (lookup : String → Option Nat) (st : MatchState) (bi : Nat) :
    matchStep banks invs lookup st bi = st ∨
    ∃ ii, ii ∈ st.unInvs ∧
      matchStep banks invs lookup st bi =
        ⟨st.results ++ [(bi, ii)], st.unTxns.erase bi, st.unInvs.erase ii⟩ := by
  unfold matchStep
  split
  · exact Or.inl rfl
  · split
    · exact Or.inl rfl
    · rename_i b _ ii _
      by_cases hii : ii ∈ st.unInvs
      · rw [if_pos hii]
        split
        · split
          · exact Or.inr ⟨ii, hii, rfl⟩
          · exact Or.inl rfl
        · exact Or.inl rfl
        · exact Or.inl rfl
      · rw [if_neg hii]
        exact Or.inl rfl

lemma partition_update (S : Finset ℕ) (R : List ℕ) (x n : Nat) (hx : x ∈ S)
    (H1 : ∀ t, t ∈ Finset.range n ↔ (t ∈ S ∨ t ∈ R))
    (H2 : ∀ t, ¬(t ∈ S ∧ t ∈ R)) (H3 : R.Nodup) :
    (∀ t, t ∈ Finset.range n ↔ (t ∈ S.erase x ∨ t ∈ R ++ [x])) ∧
    (∀ t, ¬(t ∈ S.erase x ∧ t ∈ R ++ [x])) ∧
    (R ++ [x]).Nodup := by
  have hxR : x ∉ R := fun hmem => H2 x ⟨hx, hmem⟩
  refine ⟨?_, ?_, ?_⟩
  · intro t
    rw [List.mem_append, List.mem_singleton, Finset.mem_erase]
    constructor
    · intro htr
      rcases (H1 t).mp htr with htS | htR
      · by_cases ht : t = x
        · exact Or.inr (Or.inr ht)
        · exact Or.inl ⟨ht, htS⟩
      · exact Or.inr (Or.inl htR)
    · rintro (⟨hne, htS⟩ | htR | hEq)
      · exact (H1 t).mpr (Or.inl htS)
      · exact (H1 t).mpr (Or.inr htR)
      · exact hEq ▸ (H1 x).mpr (Or.inl hx)
  · intro t
    rw [List.mem_append, List.mem_singleton, Finset.mem_erase]
    rintro ⟨⟨hne, htS⟩, htR | hEq⟩
    · exact H2 t ⟨htS, htR⟩
    · exact hne hEq
  · rw [(List.perm_append_singleton x R).nodup_iff]
    exact List.nodup_cons.mpr ⟨hxR, H3⟩

lemma inv_step (banks : List BankRow) (invs : List InvRow)
    (lookup : String → Option Nat) (st : MatchState) (bi : Nat) (bn im : Nat)
    (hbi : bi ∈ st.unTxns) (hinv : MatchInv bn im st) :
    MatchInv bn im (matchStep banks invs lookup st bi) ∧
    (∀ t, t ∈ st.unTxns → t ≠ bi → t ∈ (matchStep banks invs lookup st bi).unTxns) := by
  rcases step_dichotomy banks invs lookup st bi with h | ⟨ii, hii, h⟩
  · rw [h]
    exact ⟨hinv, fun t ht _ => ht⟩
  · obtain ⟨A1, A2, A3, B1, B2, B3⟩ := hinv
    obtain ⟨HA1, HA2, HA3⟩ :=
      partition_update st.unTxns (st.results.map Prod.fst) bi bn hbi A1 A2 A3
    obtain ⟨HB1, HB2, HB3⟩ :=
      partition_update st.unInvs (st.results.map Prod.snd) ii im hii B1 B2 B3
    rw [h]
    have hmapf : (st.results ++ [(bi, ii)]).map Prod.fst =
        st.results.map Prod.fst ++ [bi] := by simp
    have hmaps : (st.results ++ [(bi, ii)]).map Prod.snd =
        st.results.map Prod.snd ++ [ii] := by simp
    refine ⟨⟨?_, ?_, ?_, ?_, ?_, ?_⟩, ?_⟩
    · intro t
      show t ∈ Finset.range bn ↔
        (t ∈ st.unTxns.erase bi ∨ t ∈ (st.results ++ [(bi, ii)]).map Prod.fst)
      rw [hmapf]
      exact HA1 t
    · intro t
      show ¬(t ∈ st.unTxns.erase bi ∧ t ∈ (st.results ++ [(bi, ii)]).map Prod.fst)
      rw [hmapf]
      exact HA2 t
    · show ((st.results ++ [(bi, ii)]).map Prod.fst).Nodup
      rw [hmapf]
      exact HA3
    · intro v
      show v ∈ Finset.range im ↔
        (v ∈ st.unInvs.erase ii ∨ v ∈ (st.results ++ [(bi, ii)]).map Prod.snd)
      rw [hmaps]
      exact HB1 v
    · intro v
      show ¬(v ∈ st.unInvs.erase ii ∧ v ∈ (st.results ++ [(bi, ii)]).map Prod.snd)
      rw [hmaps]
      exact HB2 v
    · show ((st.results ++ [(bi, ii)]).map Prod.snd).Nodup
      rw [hmaps]
      exact HB3
    · intro t ht hne
      exact Finset.mem_erase.mpr ⟨hne, ht⟩

lemma foldl_inv (banks : List BankRow) (invs : List InvRow)
    (lookup : String → Option Nat) (bn im : Nat) :
    ∀ (L : List Nat) (st : MatchState), L.Nodup → (∀ b ∈ L, b ∈ st.unTxns) →
      MatchInv bn im st →
      MatchInv bn im (L.foldl (matchStep banks invs lookup) st) := by
  intro L
  induction L with
  | nil => exact fun st _ _ h => h
  | cons bi L ih =>
    intro st hnd hmem hinv
    rw [List.foldl_cons]
    have hbi : bi ∈ st.unTxns := hmem bi (List.mem_cons_self bi L)
    obtain ⟨hinv', hpend⟩ := inv_step banks invs lookup st bi bn im hbi hinv
    obtain ⟨hbiL, hndL⟩ := List.nodup_cons.mp hnd
    refine ih _ hndL ?_ hinv'
    intro b hb
    refine hpend b (hmem b (List.mem_cons_of_mem bi hb)) ?_
    intro hEq
    exact hbiL (hEq ▸ hb)

/-- C3: after `match` runs, each transaction row index appears in exactly one
of the matched pairs and the unmatched-transaction set, and each invoice row
index in exactly one of the matched pairs and the unmatched-invoice set; no
index is duplicated or dropped, and no transaction or invoice occurs in two
different matched pairs (one-to-one, no reuse). -/
theorem match_partition (banks : List BankRow) (invs : List InvRow) :
    (∀ t, t < banks.length ↔
      (t ∈ (matchFull banks invs).unmatched_txns ∨
        t ∈ (matchFull banks invs).matched.map Prod.fst)) ∧
    (∀ t, ¬(t ∈ (matchFull banks invs).unmatched_txns ∧
        t ∈ (matchFull banks invs).matched.map Prod.fst)) ∧
    ((matchFull banks invs).matched.map Prod.fst).Nodup ∧
    (∀ v, v < invs.length ↔
      (v ∈ (matchFull banks invs).unmatched_invs ∨
        v ∈ (matchFull banks invs).matched.map Prod.snd)) ∧
    (∀ v, ¬(v ∈ (matchFull banks invs).unmatched_invs ∧
        v ∈ (matchFull banks invs).matched.map Prod.snd)) ∧
    ((matchFull banks invs).matched.map Prod.snd).Nodup := by
  have hinv0 : MatchInv banks.length invs.length (initState banks invs) :=
    ⟨fun t => by simp [initState], fun t => by simp [initState], by simp [initState],
      fun v => by simp [initState], fun v => by simp [initState], by simp [initState]⟩
  obtain ⟨A1, A2, A3, B1, B2, B3⟩ := foldl_inv banks invs (inv_by_ref invs)
    banks.length invs.length (List.range banks.length) (initState banks invs)
    (List.nodup_range banks.length) (fun b hb => by simpa [initState] using hb) hinv0
  refine ⟨?_, ?_, A3, ?_, ?_, B3⟩
  · intro t
    constructor
    · intro ht
      rcases (A1 t).mp (Finset.mem_range.mpr ht) with h | h
      · exact Or.inl ((Finset.mem_sort _).mpr h)
      · exact Or.inr h
    · intro h
      refine Finset.mem_range.mp ((A1 t).mpr ?_)
      rcases h with h | h
      · exact Or.inl ((Finset.mem_sort _).mp h)
      · exact Or.inr h
  · rintro t ⟨h1, h2⟩
    exact A2 t ⟨(Finset.mem_sort _).mp h1, h2⟩
  · intro v
    constructor
    · intro hv
      rcases (B1 v).mp (Finset.mem_range.mpr hv) with h | h
      · exact Or.inl ((Finset.mem_sort _).mpr h)
      · exact Or.inr h
    · intro h
      refine Finset.mem_range.mp ((B1 v).mpr ?_)
      rcases h with h | h
      · exact Or.inl ((Finset.mem_sort _).mp h)
      · exact Or.inr h
  · rintro v ⟨h1, h2⟩
    exact B2 v ⟨(Finset.mem_sort _).mp h1, h2⟩

/-! ## Claim C8: last-one-wins in the invoice-reference lookup -/

lemma lastIdx_none_iff (l : List InvRow) (k : String) :
    lastIdx l k = none ↔ ∀ j r, l.get? j = some r → ¬ refKey r k := by
  induction l with
  | nil => simp [lastIdx]
  | cons a t ih =>
    constructor
    · intro hc j r hj
      cases j with
      | zero =>
        injection hj with hj
        subst hj
        simp only [lastIdx] at hc
        cases h : lastIdx t k with
        | some j0 =>
          rw [h] at hc
          exact absurd hc (by simp)
        | none =>
          rw [h] at hc
          intro hk
          rw [if_pos hk] at hc
          exact absurd hc (by simp)
      | succ j0 =>
        simp only [lastIdx] at hc
        cases h : lastIdx t k with
        | some j1 =>
          rw [h] at hc
          exact absurd hc (by simp)
        | none =>
          exact ih.mp h j0 r (by simpa using hj)
    · intro hall
      have hT : ∀ j r, t.get? j = some r → ¬ refKey r k :=
        fun j r hget => hall (j + 1) r (by simpa using hget)
      simp only [lastIdx]
      rw [ih.mpr hT]
      rw [if_neg (hall 0 a rfl)]

lemma lastIdx_some_iff (l : List InvRow) (k : String) : ∀ i,
    lastIdx l k = some i ↔
      ((∃ r, l.get? i = some r ∧ refKey r k) ∧
        (∀ j r, i < j → l.get? j = some r → ¬ refKey r k)) := by
  induction l with
  | nil => simp [lastIdx]
  | cons a t ih =>
    intro i
    constructor
    · intro hc
      simp only [lastIdx] at hc
      cases h : lastIdx t k with
      | some j =>
        rw [h] at hc
        injection hc with hc
        subst hc
        obtain ⟨⟨r, hr, hk⟩, hafter⟩ := (ih j).mp h
        refine ⟨⟨r, by simpa using hr, hk⟩, ?_⟩
        intro j' r' hlt hget
        cases j' with
        | zero => omega
        | succ j'' => exact hafter j'' r' (by omega) (by simpa using hget)
      | none =>
        rw [h] at hc
        by_cases hk : refKey a k
        · rw [if_pos hk] at hc
          injection hc with hc
          subst hc
          refine ⟨⟨a, rfl, hk⟩, ?_⟩
          intro j r hlt hget
          cases j with
          | zero => omega
          | succ j' => exact (lastIdx_none_iff t k).mp h j' r (by simpa using hget)
        · rw [if_neg hk] at hc
          exact absurd hc (by simp)
    · rintro ⟨⟨r, hr, hk⟩, hafter⟩
      simp only [lastIdx]
      cases h : lastIdx t k with
      | some j =>
        obtain ⟨⟨rj, hrj, hkj⟩, haft⟩ := (ih j).mp h
        rcases Nat.lt_trichotomy i (j + 1) with hlt | hEq | hgt
        · exact absurd hkj (hafter (j + 1) rj hlt (by simpa using hrj))
        · rw [hEq]
        · cases i with
          | zero => omega
          | succ i' => exact absurd hk (haft i' r (by omega) (by simpa using hr))
      | none =>
        cases i with
        | zero =>
          injection hr with hr
          subst hr
          rw [if_pos hk]
        | succ i' =>
          exact absurd hk ((lastIdx_none_iff t k).mp h i' r (by simpa using hr))

lemma buildRef_eq (l : List InvRow) : ∀ (i0 : Nat) (m : String → Option Nat) (k : String),
    buildRef i0 l m k =
      match lastIdx l k with
      | some j => some (i0 + j)
      | none => m k := by
  induction l with
  | nil => intro i0 m k; simp [buildRef, lastIdx]
  | cons a t ih =>
    intro i0 m k
    show buildRef (i0 + 1) t (insRef i0 a m) k = _
    rw [ih (i0 + 1) (insRef i0 a m) k]
    cases h : lastIdx t k with
    | some j =>
      simp only [lastIdx, h]
      show some (i0 + 1 + j) = some (i0 + (j + 1))
      congr 1
      omega
    | none =>
      by_cases hk : refKey a k
      · obtain ⟨s, hs, hks⟩ := hk
        subst hks
        have hk' : refKey a (normRef s) := ⟨s, hs, rfl⟩
        simp [lastIdx, h, insRef, hk', hs]
      · cases hs : a.reference with
        | none => simp [lastIdx, h, insRef, hk, hs]
        | some s =>
          have hne : ¬(k = normRef s) := fun hEq => hk ⟨s, hs, hEq⟩
          simp [lastIdx, h, insRef, hk, hs, hne]

/-- C8: the invoice-reference lookup maps the uppercased, trimmed reference
key `k` to index `i` iff invoice `i` carries a non-null reference normalizing
to `k` and no later invoice does: null references are skipped and duplicate
normalized references resolve last-one-wins in input order, so only the last
such invoice can be matched by reference. -/
theorem inv_by_ref_last_wins (invs : List InvRow) (k : String) (i : Nat) :
    inv_by_ref invs k = some i ↔
      ((∃ r, invs.get? i = some r ∧ ∃ s, r.reference = some s ∧ k = normRef s) ∧
        (∀ j r, i < j → invs.get? j = some r →
          ∀ s, r.reference = some s → k ≠ normRef s)) := by
  unfold inv_by_ref
  rw [buildRef_eq]
  have hconv : ∀ r : InvRow, refKey r k ↔ ∃ s, r.reference = some s ∧ k = normRef s :=
    fun r => Iff.rfl
  cases h : lastIdx invs k with
  | some j =>
    simp only []
    constructor
    · intro hc
      injection hc with hc
      subst hc
      obtain ⟨⟨r, hr, hk⟩, hafter⟩ := (lastIdx_some_iff invs k j).mp h
      refine ⟨⟨r, by simpa using hr, (hconv r).mp hk⟩, ?_⟩
      intro j' r' hlt hget s hs hEq
      exact hafter j' r' (by omega) hget ⟨s, hs, hEq⟩
    · rintro ⟨⟨r, hr, s, hs, hks⟩, hafter⟩
      have : lastIdx invs k = some i := by
        refine (lastIdx_some_iff invs k i).mpr ⟨⟨r, hr, ⟨s, hs, hks⟩⟩, ?_⟩
        intro j' r' hlt hget hk'
        obtain ⟨s', hs', hks'⟩ := hk'
        exact hafter j' r' hlt hget s' hs' hks'
      rw [h] at this
      injection this with this
      rw [this]
      simp
  | none =>
    simp only []
    constructor
    · intro hc
      exact absurd hc (by simp)
    · rintro ⟨⟨r, hr, s, hs, hks⟩, -⟩
      exact absurd ((lastIdx_none_iff invs k).mp h _ r hr) (by simp [hs, hks, refKey])

/-! ## Claim C2: reference extraction order -/

lemma extract_reference_eq (text : String) (h : ¬(text = "")) :
    extract_reference text =
      match reSearch matchA (text.data.map Char.toUpper) with
      | some m => String.mk m
      | none =>
        match reSearch matchB (text.data.map Char.toUpper) with
        | some m => String.mk m
        | none => "" := by
  unfold extract_reference
  rw [if_neg h]

lemma searchFrom_some_iff (pat : List Char → Option (List Char)) :
    ∀ (s : List Char) (bdry : Bool) (m : List Char),
    searchFrom pat bdry s = some m ↔
      ∃ i, matchAt pat bdry s i = some m ∧
        ∀ j, j < i → matchAt pat bdry s j = none := by
  intro s
  induction s with
  | nil =>
    intro bdry m
    constructor
    · intro h
      exact ⟨0, h, fun j hj => absurd hj (Nat.not_lt_zero j)⟩
    · rintro ⟨i, hi, hlt⟩
      cases i with
      | zero => exact hi
      | succ n => exact absurd hi (by simp [matchAt])
  | cons c cs ih =>
    intro bdry m
    unfold searchFrom
    cases hp : (if bdry then pat (c :: cs) else none) with
    | some m0 =>
      simp only []
      constructor
      · intro h
        refine ⟨0, ?_, fun j hj => absurd hj (Nat.not_lt_zero j)⟩
        show (if bdry then pat (c :: cs) else none) = some m
        rw [hp]
        exact h
      · rintro ⟨i, hi, hlt⟩
        cases i with
        | zero =>
          have h0 : (if bdry then pat (c :: cs) else none) = some m := hi
          rw [hp] at h0
          exact h0
        | succ n =>
          have h0 : (if bdry then pat (c :: cs) else none) = none :=
            hlt 0 (Nat.succ_pos n)
          rw [hp] at h0
          exact absurd h0 (by simp)
    | none =>
      simp only []
      rw [ih (!(isWordChar c)) m]
      constructor
      · rintro ⟨i, hi, hlt⟩
        refine ⟨i + 1, hi, ?_⟩
        intro j hj
        cases j with
        | zero =>
          show (if bdry then pat (c :: cs) else none) = none
          exact hp
        | succ j' =>
          show matchAt pat (!(isWordChar c)) cs j' = none
          exact hlt j' (by omega)
      · rintro ⟨i, hi, hlt⟩
        cases i with
        | zero =>
          have h0 : (if bdry then pat (c :: cs) else none) = some m := hi
          rw [hp] at h0
          exact absurd h0 (by simp)
        | succ n =>
          exact ⟨n, hi, fun j hj => hlt (j + 1) (by omega)⟩

lemma searchFrom_none_iff (pat : List Char → Option (List Char)) :
    ∀ (s : List Char) (bdry : Bool),
    searchFrom pat bdry s = none ↔ ∀ i, matchAt pat bdry s i = none := by
  intro s
  induction s with
  | nil =>
    intro bdry
    constructor
    · intro h i
      cases i with
      | zero => exact h
      | succ n => rfl
    · intro h
      exact h 0
  | cons c cs ih =>
    intro bdry
    unfold searchFrom
    cases hp : (if bdry then pat (c :: cs) else none) with
    | some m0 =>
      simp only []
      constructor
      · intro h
        exact absurd h (by simp)
      · intro h
        have h0 : (if bdry then pat (c :: cs) else none) = none := h 0
        rw [hp] at h0
        exact absurd h0 (by simp)
    | none =>
      simp only []
      rw [ih (!(isWordChar c))]
      constructor
      · intro h i
        cases i with
        | zero => exact hp
        | succ n => exact h n
      · intro h i
        exact h (i + 1)

/-- Counterexample for C2: on `"AB12 CD-3"` the leftmost substring matching
either pattern is `"AB12"` (pattern (b) at position 0), which is what the
claimed left-to-right rule (`extract_reference_spec`) returns, but the code
searches pattern (a) over the whole string first and returns `"CD-3"`. -/
theorem extract_reference_not_leftmost :
    extract_reference "AB12 CD-3" = "CD-3" ∧
    extract_reference_spec "AB12 CD-3" = "AB12" ∧
    extract_reference "AB12 CD-3" ≠ extract_reference_spec "AB12 CD-3" := by
  refine ⟨by decide, by decide, by decide⟩

/-- C2 (amended): `extract_reference` returns the leftmost match of pattern
(a) (`≥2` uppercase letters, hyphen, `≥1` digits) whenever pattern (a)
matches anywhere in the uppercased text; only when pattern (a) matches
nowhere does it return the leftmost match of pattern (b) (`≥2` uppercase
letters directly followed by `≥2` digits); and the empty string when neither
matches — pattern (a) has global priority over pattern (b) instead of the
claimed single left-to-right scan over both.  The claim's concrete examples
hold: `"Payment ref ABC-123 received"` gives `"ABC-123"` and
`"no codes here"` gives `""`. -/
theorem extract_reference_pattern_priority :
    (∀ text : String,
      (∃ i m, matchAt matchA true (text.data.map Char.toUpper) i = some m ∧
        (∀ j, j < i → matchAt matchA true (text.data.map Char.toUpper) j = none) ∧
        extract_reference text = String.mk m) ∨
      ((∀ i, matchAt matchA true (text.data.map Char.toUpper) i = none) ∧
        ((∃ i m, matchAt matchB true (text.data.map Char.toUpper) i = some m ∧
          (∀ j, j < i → matchAt matchB true (text.data.map Char.toUpper) j = none) ∧
          extract_reference text = String.mk m) ∨
        ((∀ i, matchAt matchB true (text.data.map Char.toUpper) i = none) ∧
          extract_reference text = "")))) ∧
    extract_reference "Payment ref ABC-123 received" = "ABC-123" ∧
    extract_reference "no codes here" = "" := by
  refine ⟨?_, by decide, by decide⟩
  intro text
  by_cases htext : text = ""
  · subst htext
    right
    constructor
    · intro i
      cases i with
      | zero => rfl
      | succ n => rfl
    · right
      constructor
      · intro i
        cases i with
        | zero => rfl
        | succ n => rfl
      · rfl
  · rw [extract_reference_eq text htext]
    cases hA : reSearch matchA (text.data.map Char.toUpper) with
    | some m =>
      left
      obtain ⟨i, hi, hlt⟩ :=
        (searchFrom_some_iff matchA (text.data.map Char.toUpper) true m).mp hA
      exact ⟨i, m, hi, hlt, rfl⟩
    | none =>
      right
      refine ⟨(searchFrom_none_iff matchA (text.data.map Char.toUpper) true).mp hA, ?_⟩
      cases hB : reSearch matchB (text.data.map Char.toUpper) with
      | some m =>
        left
        obtain ⟨i, hi, hlt⟩ :=
          (searchFrom_some_iff matchB (text.data.map Char.toUpper) true m).mp hB
        exact ⟨i, m, hi, hlt, rfl⟩
      | none =>
        right
        exact ⟨(searchFrom_none_iff matchB (text.data.map Char.toUpper) true).mp hB, rfl⟩

/-! ## Claim C4: findings-merge precedence -/

lemma find?_overwrite (f : List (String × FVal)) (k : String) (v : FVal)
    (h : f.any (fun p => p.1 == k) = true) :
    (f.map (fun p => if p.1 == k then (k, v) else p)).find? (fun p => p.1 == k) =
      some (k, v) := by
  induction f with
  | nil => simp at h
  | cons p t ih =>
    rw [List.any_cons] at h
    by_cases hp : (p.1 == k) = true
    · rw [List.map_cons, if_pos hp,
        @List.find?_cons_of_pos _ (fun q => q.1 == k) (k, v) _ (by simp)]
    · have hpf : (p.1 == k) = false := by simpa using hp
      have ht : t.any (fun p => p.1 == k) = true := by simpa [hpf] using h
      rw [List.map_cons, if_neg hp,
        @List.find?_cons_of_neg _ (fun q => q.1 == k) p _ hp]
      exact ih ht

lemma find?_append_key (f : List (String × FVal)) (k : String) (v : FVal) :
    (f ++ [(k, v)]).find? (fun p => p.1 == k) =
      some ((f.find? (fun p => p.1 == k)).getD (k, v)) := by
  induction f with
  | nil =>
    simp only [List.nil_append]
    rw [@List.find?_cons_of_pos _ (fun q => q.1 == k) (k, v) _ (by simp)]
    rfl
  | cons p t ih =>
    by_cases hp : (p.1 == k) = true
    · rw [List.cons_append,
        @List.find?_cons_of_pos _ (fun q => q.1 == k) p _ hp,
        @List.find?_cons_of_pos _ (fun q => q.1 == k) p _ hp]
      rfl
    · rw [List.cons_append,
        @List.find?_cons_of_neg _ (fun q => q.1 == k) p _ hp,
        @List.find?_cons_of_neg _ (fun q => q.1 == k) p _ hp]
      exact ih

lemma find?_map_other (f : List (String × FVal)) (k k' : String) (v : FVal)
    (h : ¬(k = k')) :
    (f.map (fun p => if p.1 == k' then (k', v) else p)).find? (fun p => p.1 == k) =
      f.find? (fun p => p.1 == k) := by
  have hk'k : ¬((k' == k) = true) := by
    simp only [beq_iff_eq]
    exact fun hEq => h hEq.symm
  induction f with
  | nil => rfl
  | cons p t ih =>
    by_cases hp : (p.1 == k') = true
    · have hp' : p.1 = k' := by simpa using hp
      have hpk : ¬((p.1 == k) = true) := by
        rw [hp']
        exact hk'k
      rw [List.map_cons, if_pos hp,
        @List.find?_cons_of_neg _ (fun q => q.1 == k) (k', v) _ hk'k,
        @List.find?_cons_of_neg _ (fun q => q.1 == k) p _ hpk]
      exact ih
    · by_cases hpk : (p.1 == k) = true
      · rw [List.map_cons, if_neg hp,
          @List.find?_cons_of_pos _ (fun q => q.1 == k) p _ hpk,
          @List.find?_cons_of_pos _ (fun q => q.1 == k) p _ hpk]
      · rw [List.map_cons, if_neg hp,
          @List.find?_cons_of_neg _ (fun q => q.1 == k) p _ hpk,
          @List.find?_cons_of_neg _ (fun q => q.1 == k) p _ hpk]
        exact ih

lemma find?_append_other (f : List (String × FVal)) (k k' : String) (v : FVal)
    (h : ¬(k = k')) :
    (f ++ [(k', v)]).find? (fun p => p.1 == k) = f.find? (fun p => p.1 == k) := by
  have hk'k : ¬((k' == k) = true) := by
    simp only [beq_iff_eq]
    exact fun hEq => h hEq.symm
  induction f with
  | nil =>
    simp only [List.nil_append]
    rw [@List.find?_cons_of_neg _ (fun q => q.1 == k) (k', v) _ hk'k]
  | cons p t ih =>
    by_cases hp : (p.1 == k) = true
    · rw [List.cons_append,
        @List.find?_cons_of_pos _ (fun q => q.1 == k) p _ hp,
        @List.find?_cons_of_pos _ (fun q => q.1 == k) p _ hp]
    · rw [List.cons_append,
        @List.find?_cons_of_neg _ (fun q => q.1 == k) p _ hp,
        @List.find?_cons_of_neg _ (fun q => q.1 == k) p _ hp]
      exact ih

lemma dictGet_set_self (f : List (String × FVal)) (k : String) (v : FVal) :
    dictGet (dictSet f k v) k = some v := by
  unfold dictSet dictGet
  by_cases hany : f.any (fun p => p.1 == k) = true
  · rw [if_pos hany, find?_overwrite f k v hany]
    rfl
  · rw [if_neg hany, find?_append_key f k v]
    have hnone : f.find? (fun p => p.1 == k) = none := by
      rw [List.find?_eq_none]
      intro x hx hpx
      exact hany (List.any_eq_true.mpr ⟨x, hx, hpx⟩)
    rw [hnone]
    rfl

lemma dictGet_set_other (f : List (String × FVal)) (k k' : String) (v : FVal)
    (h : ¬(k = k')) : dictGet (dictSet f k' v) k = dictGet f k := by
  unfold dictSet dictGet
  by_cases hany : f.any (fun p => p.1 == k') = true
  · rw [if_pos hany, find?_map_other f k k' v h]
  · rw [if_neg hany, find?_append_other f k k' v h]

lemma mergeStep_cases (f : List (String × FVal)) (p : String × FVal) :
    mergeStep f p = f ∨ mergeStep f p = dictSet f p.1 p.2 := by
  unfold mergeStep
  split
  · exact Or.inr rfl
  · split
    · exact Or.inr rfl
    · exact Or.inl rfl
  · exact Or.inl rfl

lemma mergeStep_get_other (f : List (String × FVal)) (p : String × FVal) (k : String)
    (h : ¬(k = p.1)) : dictGet (mergeStep f p) k = dictGet f k := by
  rcases mergeStep_cases f p with hc | hc
  · rw [hc]
  · rw [hc]
    exact dictGet_set_other f k p.1 p.2 h

lemma merge_foldl_other (strict : List (String × FVal)) (f : List (String × FVal))
    (k : String) (h : ∀ p ∈ strict, ¬(k = p.1)) :
    dictGet (strict.foldl mergeStep f) k = dictGet f k := by
  induction strict generalizing f with
  | nil => rfl
  | cons p t ih =>
    rw [List.foldl_cons]
    rw [ih (mergeStep f p) (fun q hq => h q (List.mem_cons_of_mem p hq))]
    exact mergeStep_get_other f p k (h p (List.mem_cons_self p t))

lemma mergeStep_get_self (f : List (String × FVal)) (p : String × FVal) :
    dictGet (mergeStep f p) p.1 =
      match dictGet f p.1 with
      | none => some p.2
      | some (FVal.df rows) =>
        if rows.isEmpty && !(fvalEmpty p.2) then some p.2 else some (FVal.df rows)
      | some (FVal.lst xs) => some (FVal.lst xs) := by
  unfold mergeStep
  cases hfv : dictGet f p.1 with
  | none => exact dictGet_set_self f p.1 p.2
  | some fv =>
    cases fv with
    | df rows =>
      show dictGet (if rows.isEmpty && !(fvalEmpty p.2) then dictSet f p.1 p.2 else f) p.1 =
        if rows.isEmpty && !(fvalEmpty p.2) then some p.2 else some (FVal.df rows)
      by_cases hc : (rows.isEmpty && !(fvalEmpty p.2)) = true
      · rw [if_pos hc, if_pos hc]
        exact dictGet_set_self f p.1 p.2
      · rw [if_neg hc, if_neg hc]
        exact hfv
    | lst xs =>
      show dictGet f p.1 = some (FVal.lst xs)
      exact hfv

/-- Full characterization of the merged value at a strict key `k` carried
once by the strict findings: absent keys are set; an empty-DataFrame existing
value is replaced exactly when the strict value is non-empty; any other
existing value (non-empty DataFrame, or a list, which fails the
`isinstance(existing, pd.DataFrame)` guard) is kept. -/
lemma mergeFindings_get_key (findings s1 s2 : List (String × FVal)) (k : String) (v : FVal)
    (h1 : ∀ p ∈ s1, ¬(k = p.1)) (h2 : ∀ p ∈ s2, ¬(k = p.1)) :
    dictGet (mergeFindings findings (s1 ++ (k, v) :: s2)) k =
      match dictGet findings k with
      | none => some v
      | some (FVal.df rows) =>
        if rows.isEmpty && !(fvalEmpty v) then some v else some (FVal.df rows)
      | some (FVal.lst xs) => some (FVal.lst xs) := by
  unfold mergeFindings
  rw [List.foldl_append, List.foldl_cons]
  rw [merge_foldl_other s2 _ k h2]
  have hf1 : dictGet (s1.foldl mergeStep findings) k = dictGet findings k :=
    merge_foldl_other s1 findings k h1
  have hstep : dictGet (mergeStep (s1.foldl mergeStep findings) (k, v)) k =
      match dictGet (s1.foldl mergeStep findings) k with
      | none => some v
      | some (FVal.df rows) =>
        if rows.isEmpty && !(fvalEmpty v) then some v else some (FVal.df rows)
      | some (FVal.lst xs) => some (FVal.lst xs) :=
    mergeStep_get_self (s1.foldl mergeStep findings) (k, v)
  rw [hf1] at hstep
  exact hstep

unseal Rat.add Rat.sub Rat.mul Rat.inv Rat.ofScientific in
/-- C4: for each category the Findings Engine produced, the merge takes the
Engine's result when the category is absent from the Matcher's findings, or
present as an empty DataFrame while the Engine's result is non-empty;
otherwise the Matcher's result is kept, and categories the Engine did not
produce are untouched.  In particular, against the Matcher's actual findings
dict (whose `duplicate_txn` is an empty DataFrame): when the Engine flags two
duplicate rows the merged `duplicate_txn` has those two rows; when the
Matcher's `duplicate_txn` already holds one row, that row is kept regardless
of the Engine's output; and the Matcher's `partials` entry is kept. -/
theorem merge_precedence :
    (∀ (findings s1 s2 : List (String × FVal)) (k : String) (v : FVal),
      (∀ p ∈ s1, ¬(k = p.1)) → (∀ p ∈ s2, ¬(k = p.1)) →
      (dictGet findings k = none →
        dictGet (mergeFindings findings (s1 ++ (k, v) :: s2)) k = some v) ∧
      (∀ rows, dictGet findings k = some (FVal.df rows) → rows.isEmpty = true →
        fvalEmpty v = false →
        dictGet (mergeFindings findings (s1 ++ (k, v) :: s2)) k = some v) ∧
      (∀ rows, dictGet findings k = some (FVal.df rows) →
        rows.isEmpty = false ∨ fvalEmpty v = true →
        dictGet (mergeFindings findings (s1 ++ (k, v) :: s2)) k =
          some (FVal.df rows))) ∧
    (∀ (findings strict : List (String × FVal)) (k : String),
      (∀ p ∈ strict, ¬(k = p.1)) →
      dictGet (mergeFindings findings strict) k = dictGet findings k) ∧
    dictGet (mergeFindings matcherFindings (compute_findings [] [dupA, dupB] []))
        "duplicate_txn" = some (FVal.df [dupA, dupB]) ∧
    dictGet (mergeFindings
        [("duplicate_txn", FVal.df [dupA]), ("partials", FVal.lst [])]
        (compute_findings [] [dupA, dupB] [])) "duplicate_txn" =
      some (FVal.df [dupA]) ∧
    dictGet (mergeFindings matcherFindings (compute_findings [] [dupA, dupB] []))
        "partials" = some (FVal.lst []) := by
  refine ⟨?_, ?_, by decide, by decide, by decide⟩
  · intro findings s1 s2 k v h1 h2
    have hchar := mergeFindings_get_key findings s1 s2 k v h1 h2
    refine ⟨?_, ?_, ?_⟩
    · intro hnone
      rw [hchar, hnone]
    · intro rows hdf hrows hv
      rw [hchar, hdf]
      show (if rows.isEmpty && !(fvalEmpty v) then some v else some (FVal.df rows)) =
        some v
      rw [hrows, hv]
      rfl
    · intro rows hdf hcond
      rw [hchar, hdf]
      show (if rows.isEmpty && !(fvalEmpty v) then some v else some (FVal.df rows)) =
        some (FVal.df rows)
      rcases hcond with hc | hc
      · rw [hc]
        rfl
      · rw [hc]
        simp
  · intro findings strict k h
    exact merge_foldl_other strict findings k h

unseal Rat.add Rat.sub Rat.mul Rat.inv Rat.ofScientific in
/-- Witness for C4, discharging the hypotheses of the general part at the
spec's own example: the Matcher's actual findings hold an empty
`duplicate_txn` DataFrame, the Findings Engine flags both duplicate rows, and
the merged dict takes the Engine's result. -/
theorem merge_precedence_witness :
    dictGet (mergeFindings matcherFindings
        [("duplicate_txn", FVal.df (dupRows [dupA, dupB])),
          ("high_value_unmatched", FVal.df (hvRows [dupA, dupB]))]) "duplicate_txn" =
      some (FVal.df (dupRows [dupA, dupB])) := by
  have h := (merge_precedence.1 matcherFindings []
      [("high_value_unmatched", FVal.df (hvRows [dupA, dupB]))] "duplicate_txn"
      (FVal.df (dupRows [dupA, dupB])) (by simp) (by decide)).2.1
  exact h [] rfl rfl (by decide)
